import Mathlib

/-!
Verification of the swarm-discovery peer discovery library.

This file gives a shallow embedding of the core data model and operations of
the library (the Sender's rate-limited query/response state machine, the
Receiver's message classification, the Updater's peer book with expiry, and
the public handle's TXT attribute validation), translated from the Rust
sources `src/lib.rs`, `src/sender.rs`, `src/receiver.rs`, `src/updater.rs`,
and `src/guardian.rs`, and proves properties of the natural-language
specification against it.

Modelling conventions:
* `BTreeMap<K, V>` is embedded as a list of key/value pairs kept sorted by
  key (`Bmap`), with insert-or-replace, lookup, and entry-update operations
  mirroring the `insert`, `get`/`get_mut`, `remove`, `retain` and
  `entry(..).or_…` calls of the source.
* Rust machine integers that never overflow in the modelled code paths
  (ports, counters, sizes) are embedded as `Nat`.
* `Instant` and `Duration` values, and the `f32` quantities τ and φ, are
  embedded as rationals (seconds); `f32::ceil` becomes `Int.ceil`, and the
  saturating `as u32` cast of a non-negative value becomes `Int.toNat`.
* DNS names are lists of labels (root excluded); hickory compares labels
  case-insensitively, all names in the modelled protocol are lower-case, so
  label comparison is plain string equality.
* The DNS wire encoding is not modelled: `Message::to_vec` followed by
  `Message::from_vec` is taken as the identity on messages, so the
  Receiver's `handle_msg` is embedded directly on the message structure.
-/

namespace SwarmDiscovery

/-- Boolean strict order on keys, used for the sorted-list embedding of
`BTreeMap`. -/
class BLt (κ : Type) where
  blt : κ → κ → Bool

instance : BLt Nat := ⟨Nat.blt⟩

instance : BLt String := ⟨fun a b => decide (a < b)⟩

/-- Embedding of `BTreeMap<κ, ν>`: association list sorted by key. -/
abbrev Bmap (κ ν : Type) := List (κ × ν)

/-- `BTreeMap::insert`: insert or replace, keeping the list sorted. -/
def Bmap.insert [BLt κ] [DecidableEq κ] : Bmap κ ν → κ → ν → Bmap κ ν
  | [], k, v => [(k, v)]
  | (k', v') :: rest, k, v =>
    if k = k' then (k, v) :: rest
    else if BLt.blt k k' then (k, v) :: (k', v') :: rest
    else (k', v') :: Bmap.insert rest k v

/-- `BTreeMap::get`. -/
def Bmap.get [DecidableEq κ] : Bmap κ ν → κ → Option ν
  | [], _ => none
  | (k', v') :: rest, k => if k = k' then some v' else Bmap.get rest k

/-- `BTreeMap::remove` (key deletion; on the unique-key lists produced by the
map operations, removing every matching entry coincides with removing the
single one). -/
def Bmap.erase [DecidableEq κ] (m : Bmap κ ν) (k : κ) : Bmap κ ν :=
  m.filter fun e => e.1 ≠ k

/-- `BTreeMap::get_mut` followed by an in-place update of the value (no-op
when the key is absent). -/
def Bmap.modify [DecidableEq κ] (m : Bmap κ ν) (k : κ) (f : ν → ν) : Bmap κ ν :=
  m.map fun e => if e.1 = k then (e.1, f e.2) else e

/-- `BTreeMap::entry(k).or_insert_with(d)` followed by an in-place update of
the entry's value. -/
def Bmap.updateD [BLt κ] [DecidableEq κ] (d : ν) (f : ν → ν) :
    Bmap κ ν → κ → Bmap κ ν
  | [], k => [(k, f d)]
  | (k', v') :: rest, k =>
    if k = k' then (k', f v') :: rest
    else if BLt.blt k k' then (k, f d) :: (k', v') :: rest
    else (k', v') :: Bmap.updateD d f rest k

/-- `entry(k).or_insert_with(Vec::new).push(x)`. -/
def Bmap.pushAt [BLt κ] [DecidableEq κ] (m : Bmap κ (List α)) (k : κ) (x : α) :
    Bmap κ (List α) :=
  Bmap.updateD [] (fun l => l ++ [x]) m k

/-- IP addresses; the numeric payload stands for the address bits.  `IpAddr`'s
derived order puts every v4 address before every v6 address. -/
inductive IpAddr : Type
  | v4 (a : Nat)
  | v6 (a : Nat)
deriving DecidableEq

/-- The derived `Ord` on `IpAddr`: variant order first, payload second. -/
def IpAddr.blt : IpAddr → IpAddr → Bool
  | .v4 a, .v4 b => Nat.blt a b
  | .v4 _, .v6 _ => true
  | .v6 _, .v4 _ => false
  | .v6 a, .v6 b => Nat.blt a b

/-- Lexicographic order on `(IpAddr, u16)` pairs (the derived `Ord` used by
`Vec::sort_unstable`). -/
def addrLe (x y : IpAddr × Nat) : Bool :=
  if x.1 = y.1 then x.2 ≤ y.2 else IpAddr.blt x.1 y.1

/-- Insertion sort by a boolean order; stands in for `Vec::sort_unstable`
(the sorted result is the same for a total order). -/
def sortByLe (le : α → α → Bool) : List α → List α
  | [] => []
  | x :: xs => insertLe le x (sortByLe le xs)
where
  insertLe (le : α → α → Bool) (x : α) : List α → List α
    | [] => [x]
    | y :: ys => if le x y then x :: y :: ys else y :: insertLe le x ys

/-- `Vec::dedup`: remove consecutive duplicates. -/
def dedupAdj [DecidableEq α] : List α → List α
  | [] => []
  | [x] => [x]
  | x :: y :: rest => if x = y then dedupAdj (y :: rest) else x :: dedupAdj (y :: rest)

/-- `addrs.sort_unstable(); addrs.dedup();` on a `Vec<(IpAddr, u16)>`. -/
def sortDedupAddrs (l : List (IpAddr × Nat)) : List (IpAddr × Nat) :=
  dedupAdj (sortByLe addrLe l)

/-- `type TxtData = BTreeMap<String, Option<String>>` (lib.rs). -/
abbrev TxtData := Bmap String (Option String)

/-- The `Peer` struct of lib.rs: advertised/observed `(address, port)` pairs,
the time of the last observation, and the TXT attribute map. -/
structure Peer : Type where
  addrs : List (IpAddr × Nat)
  last_seen : ℚ
  txt : TxtData
deriving DecidableEq

/-- `Peer::is_expiry`: true iff the address set is empty. -/
def Peer.is_expiry (p : Peer) : Bool := p.addrs.length = 0

/-- UTF-8 size in bytes of one scalar value, as encoded by Rust strings. -/
def charUtf8Size (c : Char) : Nat :=
  if c.toNat < 0x80 then 1
  else if c.toNat < 0x800 then 2
  else if c.toNat < 0x10000 then 3
  else 4

/-- `str::len`: the length of the string in bytes (not characters). -/
def strByteLen (s : String) : Nat :=
  s.data.foldr (fun c n => charUtf8Size c + n) 0

/-- The `TxtAttributeError` enum of lib.rs. -/
inductive TxtAttributeError : Type
  | EmptyKey
  | TooLong
deriving DecidableEq

/-- `validate_txt_attribute` (lib.rs): reject empty keys, then reject
key/value pairs longer than 254 bytes combined. -/
def validate_txt_attribute (key : String) (value : Option String) :
    Except TxtAttributeError Unit :=
  if key = "" then .error .EmptyKey
  else if strByteLen key + (value.map strByteLen).getD 0 > 254 then .error .TooLong
  else .ok ()

/-! ## DNS message model (the fragment of hickory-proto used by the code) -/

/-- A DNS name as its list of labels, root label excluded; e.g.
`_svc._udp.local.` is `["_svc", "_udp", "local"]`. -/
abbrev Name := List String

/-- Lexicographic label order on names (stands in for the `Ord` of hickory
names; only the sorted-map bookkeeping depends on it, never a claim). -/
def nameBlt : Name → Name → Bool
  | [], [] => false
  | [], _ :: _ => true
  | _ :: _, [] => false
  | a :: as, b :: bs =>
    if a = b then nameBlt as bs else decide (a < b)

instance : BLt Name := ⟨nameBlt⟩

/-- `Name::base_name`: drop the leftmost label. -/
def Name.base_name (n : Name) : Name := n.tail

/-- `Name::num_labels`. -/
def Name.num_labels (n : Name) : Nat := n.length

/-- `zone.zone_of(name)`: the zone's labels are a suffix of the name's. -/
def Name.zone_of (zone n : Name) : Bool := zone.isSuffixOf n

/-- `DNSClass`: the code only distinguishes `IN` from everything else. -/
inductive DNSClass : Type
  | IN
  | other
deriving DecidableEq

/-- Record data: the variants handled by the code, everything else `other`. -/
inductive RData : Type
  | srv (priority weight port : Nat) (target : Name)
  | a (addr : Nat)
  | aaaa (addr : Nat)
  | txt (strings : List String)
  | other
deriving DecidableEq

/-- A resource record: `Record::from_rdata(name, ttl, rdata)` constructs it
with class `IN`. -/
structure Record : Type where
  name : Name
  ttl : Nat
  dns_class : DNSClass
  data : RData
deriving DecidableEq

/-- Query record types: the code only tests for `PTR`. -/
inductive QType : Type
  | ptr
  | other
deriving DecidableEq

/-- A DNS question. -/
structure Question : Type where
  query_class : DNSClass
  query_type : QType
  name : Name
deriving DecidableEq

/-- `MessageType` of the DNS header. -/
inductive MessageType : Type
  | query
  | response
deriving DecidableEq

/-- The parts of a DNS `Message` the code reads or writes. -/
structure Message : Type where
  message_type : MessageType
  authoritative : Bool
  queries : List Question
  answers : List Record
  additionals : List Record
deriving DecidableEq

/-- `TXT::to_string()`: hickory's `Display` concatenates the character
strings of the TXT rdata. -/
def txtToString (strings : List String) : String := String.join strings

/-! ## Sender state and response construction (sender.rs) -/

/-- The socket `Mode` (socket.rs): which family a message is sent on. -/
inductive Mode : Type
  | v4
  | v6
  | any
deriving DecidableEq

/-- The control messages of `guardian::Input` that the Guardian forwards to
the Sender (its catch-all arm); `AddInterface`/`RemoveInterface` are consumed
by the Guardian itself and never reach `update_response`. -/
inductive GInput : Type
  | RemoveAll
  | RemovePort (port : Nat)
  | RemoveAddr (addr : IpAddr)
  | AddAddr (port : Nat) (addrs : List IpAddr)
  | SetTxt (key : String) (value : Option String)
  | RemoveTxt (key : String)
deriving DecidableEq

/-- The mutable state of the `Discoverer` as used by the Sender: the local
peer id and the peer map whose entry at `peer_id` is the local advertisement
(`LocalAdvertisement` of the spec). -/
structure Disco : Type where
  peer_id : String
  peers : Bmap String Peer
deriving DecidableEq

/-- `Peer::new()`: no addresses, no attributes, `last_seen` = now. -/
def Peer.new (now : ℚ) : Peer := ⟨[], now, []⟩

/-- The per-port SRV target name `"{peer_id}-{port}.local."`. -/
def targetName (peer_id : String) (port : Nat) : Name :=
  [peer_id ++ "-" ++ Nat.repr port, "local"]

/-- `make_response` (sender.rs): build the cached response message from the
local peer entry, or `none` when there is no local entry.  One SRV answer per
advertised port with target `"{peer_id}-{port}.local."`, one A/AAAA
additional per address under that port, and — when the attribute map is
non-empty — one TXT answer at the service-instance name whose strings are
`key` (value-less) or `key=value`, empty keys skipped. -/
def make_response (d : Disco) (service_name : Name) : Option Message :=
  match Bmap.get d.peers d.peer_id with
  | none => none
  | some peer =>
    let my_srv_name : Name := d.peer_id :: service_name
    let srv_map : Bmap Nat (List IpAddr) :=
      peer.addrs.foldl (fun m ap => Bmap.pushAt m ap.2 ap.1) []
    let portRecords : List Record × List Record :=
      srv_map.foldl
        (fun acc e =>
          let port := e.1
          let target := targetName d.peer_id port
          (acc.1 ++ [⟨my_srv_name, 0, .IN, .srv 0 0 port target⟩],
           acc.2 ++ e.2.map (fun addr =>
             match addr with
             | .v4 a => (⟨target, 0, .IN, .a a⟩ : Record)
             | .v6 a => (⟨target, 0, .IN, .aaaa a⟩ : Record))))
        ([], [])
    let answers :=
      if peer.txt ≠ [] then
        let parts : List String := peer.txt.filterMap fun kv =>
          if kv.1 = "" then none
          else some (match kv.2 with
            | none => kv.1
            | some v => kv.1 ++ "=" ++ v)
        portRecords.1 ++ [⟨my_srv_name, 0, .IN, .txt parts⟩]
      else portRecords.1
    some ⟨.response, true, [], answers, portRecords.2⟩

/-- The state mutation performed by each arm of `update_response`
(sender.rs) on the `Discoverer`.  The source's `AddAddr`/`SetTxt` arms insert
a fresh local entry when none exists (lib.rs constructs fresh entries with
`Peer::new`, whose `last_seen` is the current time, passed here as `now`). -/
def applyUpdate (now : ℚ) (msg : GInput) (d : Disco) : Disco :=
  match msg with
  | .RemoveAll => { d with peers := Bmap.erase d.peers d.peer_id }
  | .RemovePort port =>
    { d with peers := Bmap.modify d.peers d.peer_id fun p =>
        { p with addrs := p.addrs.filter fun ap => ap.2 ≠ port } }
  | .RemoveAddr addr =>
    { d with peers := Bmap.modify d.peers d.peer_id fun p =>
        { p with addrs := p.addrs.filter fun ap => ap.1 ≠ addr } }
  | .AddAddr port addrs =>
    let entry := (Bmap.get d.peers d.peer_id).getD (Peer.new now)
    let entry :=
      { entry with addrs :=
          addrs.foldl (fun l addr => sortDedupAddrs (l ++ [(addr, port)])) entry.addrs }
    { d with peers := Bmap.insert d.peers d.peer_id entry }
  | .SetTxt key value =>
    let entry := (Bmap.get d.peers d.peer_id).getD (Peer.new now)
    let entry := { entry with txt := Bmap.insert entry.txt key value }
    { d with peers := Bmap.insert d.peers d.peer_id entry }
  | .RemoveTxt key =>
    { d with peers := Bmap.modify d.peers d.peer_id fun p =>
        { p with txt := Bmap.erase p.txt key } }

/-- `update_response` (sender.rs): mutate the discoverer state and rebuild
the cached response.  In the source the `RemoveTxt` arm returns `None`
directly when there is no local entry; `make_response` also returns `None`
then, so the uniform rebuild is the same function. -/
def update_response (now : ℚ) (d : Disco) (service_name : Name) (msg : GInput) :
    Disco × Option Message :=
  let d := applyUpdate now msg d
  (d, make_response d service_name)

/-- `DropGuard::set_txt_attribute` (lib.rs): validate synchronously, and on
success enqueue the `SetTxt` control message towards the Guardian (the
returned `GInput` is the enqueued message); on failure return the error
without enqueueing anything. -/
def set_txt_attribute (key : String) (value : Option String) :
    Except TxtAttributeError GInput :=
  match validate_txt_attribute key value with
  | .error e => .error e
  | .ok () => .ok (.SetTxt key value)

/-- `cutoff = (tau.as_secs_f32() * phi).ceil() as u32` (sender.rs line 37);
the saturating float-to-`u32` cast of the rounded-up product. -/
def cutoff (tau phi : ℚ) : Nat := (⌈tau * phi⌉).toNat

/-- The Sender's inbox message type `MdnsMsg` (sender.rs). -/
inductive MdnsMsg : Type
  | queryV4
  | queryV6
  | response (peers : Bmap String Peer)
  | timeout (count : Nat)
  | sizeUpdate (size : Nat)
  | update (msg : GInput)
deriving DecidableEq

/-- The Sender's mutable state while in Phase 2 (the suppression window):
the response counter of the window, the cached swarm size, the discoverer
state, the cached response message, and the `has_responded` flag. -/
structure P2State : Type where
  responseCount : Nat
  swarmSize : Nat
  disco : Disco
  response : Option Message
  hasResponded : Bool
deriving DecidableEq

/-- How a Phase-2 window ended. -/
inductive P2Outcome : Type
  | suppressed
  | timedOut
  | pending
deriving DecidableEq

/-- The observable result of running a Phase-2 window: final state, the
response messages sent on the sockets (with their mode), the peer snapshots
forwarded to the Updater, and how the window ended. -/
structure P2Out : Type where
  state : P2State
  sent : List (Message × Mode)
  updates : List (Bmap String Peer)
  outcome : P2Outcome
deriving DecidableEq

/-- The Phase-2 event loop of the Sender (sender.rs lines 118-149), as a
function of the inbox messages it processes until it leaves the window.
`co` is the cutoff, `tc` the current `timeout_count` epoch, `mode` the
family of the triggering query, `now` the clock used for entries freshly
created by control updates.
* `Response(resp)`: add `|resp|` to `response_count`, forward the snapshot to
  the Updater; if the count reached the cutoff, abort the timer and suppress
  (leave without sending).
* `Timeout(c)` with `c = tc`: send the cached response, if any, on `mode` and
  set `has_responded`; leave the window.  Stale epochs are ignored.
* `SizeUpdate` and `Update` are handled as in Phase 1; queries are ignored.
`pending` marks runs whose event list was exhausted inside the window. -/
def phase2Run (co tc : Nat) (service_name : Name) (now : ℚ) (mode : Mode) :
    List MdnsMsg → P2State → P2Out
  | [], st => ⟨st, [], [], .pending⟩
  | msg :: rest, st =>
    match msg with
    | .response resp =>
      let st' := { st with responseCount := st.responseCount + resp.length }
      if co ≤ st'.responseCount then
        ⟨st', [], [resp], .suppressed⟩
      else
        let out := phase2Run co tc service_name now mode rest st'
        { out with updates := resp :: out.updates }
    | .timeout c =>
      if c = tc then
        match st.response with
        | some m => ⟨{ st with hasResponded := true }, [(m, mode)], [], .timedOut⟩
        | none => ⟨st, [], [], .timedOut⟩
      else phase2Run co tc service_name now mode rest st
    | .sizeUpdate n => phase2Run co tc service_name now mode rest { st with swarmSize := n }
    | .update g =>
      let dr := update_response now st.disco service_name g
      phase2Run co tc service_name now mode rest
        { st with disco := dr.1, response := dr.2 }
    | .queryV4 => phase2Run co tc service_name now mode rest st
    | .queryV6 => phase2Run co tc service_name now mode rest st

/-! ## Receiver: message classification (receiver.rs `handle_msg`) -/

/-- One iteration of the answers loop of `handle_msg`: an IN-class SRV
answer whose owner name is directly under the service name contributes its
`(port, peer_id)` pair to the target's entry, provided its first label
agrees with the first peer id encountered (answers for any other peer id
are skipped). -/
def scanAnswersStep (service_name : Name)
    (acc : Bmap Name (List (Nat × String)) × Option String) (r : Record) :
    Bmap Name (List (Nat × String)) × Option String :=
  if r.dns_class ≠ DNSClass.IN then acc
  else if r.name.base_name ≠ service_name then acc
  else
    match r.name.head? with
    | none => acc
    | some response_peer_id =>
      if acc.2.getD response_peer_id ≠ response_peer_id then acc
      else
        match r.data with
        | .srv _ _ port target =>
          (Bmap.pushAt acc.1 target (port, response_peer_id), some response_peer_id)
        | _ => (acc.1, some response_peer_id)

/-- The answers loop of `handle_msg`, folded over the packet's answers. -/
def scanAnswers (service_name : Name) (answers : List Record)
    (acc : Bmap Name (List (Nat × String)) × Option String) :
    Bmap Name (List (Nat × String)) × Option String :=
  answers.foldl (scanAnswersStep service_name) acc

/-- The `Kind::Ip` arm of the additionals loop: push `(ip, port)` under the
peer id of every `(port, peer_id)` pair recorded for this owner name. -/
def joinIp (ip : IpAddr) (name : Name)
    (peer_ports : Bmap Name (List (Nat × String)))
    (peer_addrs : Bmap String (List (IpAddr × Nat))) :
    Bmap String (List (IpAddr × Nat)) :=
  ((Bmap.get peer_ports name).getD []).foldl
    (fun acc pp => Bmap.pushAt acc pp.2 (ip, pp.1)) peer_addrs

/-- One iteration of the additionals loop of `handle_msg`: IN-class A/AAAA
additionals in the `local.` zone are joined to the peers of the SRV answers
sharing their owner name, and TXT additionals at 3-label owner names are
recorded under the first peer id.  The source stores the TXT display string
where the attribute map holds an `Option String` value (that line does not
even type-check as written); it is modelled as stored as a present value. -/
def scanAdditionalsStep (peer_ports : Bmap Name (List (Nat × String)))
    (peer_id : Option String)
    (acc : Bmap String (List (IpAddr × Nat)) × Bmap String TxtData)
    (r : Record) :
    Bmap String (List (IpAddr × Nat)) × Bmap String TxtData :=
  if r.dns_class ≠ DNSClass.IN then acc
  else if ¬ Name.zone_of ["local"] r.name then acc
  else
    match r.data with
    | .a addr => (joinIp (IpAddr.v4 addr) r.name peer_ports acc.1, acc.2)
    | .aaaa addr => (joinIp (IpAddr.v6 addr) r.name peer_ports acc.1, acc.2)
    | .txt strings =>
      if r.name.num_labels ≠ 3 then acc
      else
        match peer_id, r.name.head? with
        | some pid, some txt_name =>
          (acc.1,
           Bmap.updateD [] (fun m => Bmap.insert m txt_name (some (txtToString strings)))
             acc.2 pid)
        | _, _ => acc
    | _ => acc

/-- The additionals loop of `handle_msg`, folded over the packet's
additionals. -/
def scanAdditionals (peer_ports : Bmap Name (List (Nat × String)))
    (peer_id : Option String) (additionals : List Record)
    (acc : Bmap String (List (IpAddr × Nat)) × Bmap String TxtData) :
    Bmap String (List (IpAddr × Nat)) × Bmap String TxtData :=
  additionals.foldl (scanAdditionalsStep peer_ports peer_id) acc

/-- The final loop of `handle_msg`: sort and deduplicate each peer's address
list, attach the collected TXT data, stamp `last_seen` with the current
time, and build the result map. -/
def buildPeers (now : ℚ) (peer_addrs : Bmap String (List (IpAddr × Nat)))
    (peer_txt : Bmap String TxtData) : Bmap String Peer :=
  peer_addrs.foldl
    (fun ret e =>
      Bmap.insert ret e.1
        ⟨sortDedupAddrs e.2, now, (Bmap.get peer_txt e.1).getD []⟩)
    []

/-- `handle_msg` (receiver.rs): classify an inbound mDNS message.  A question
of class IN, type PTR at the service name yields a query event for the
sender's address family; otherwise the SRV answers and A/AAAA/TXT
additionals are folded into a `{peer_id → Peer}` response event (parse
failures of the wire format, modelled away, yield `none`). -/
def handle_msg (packet : Message) (service_name : Name) (addr : IpAddr) (now : ℚ) :
    Option MdnsMsg :=
  match packet.queries.find? (fun q =>
      q.query_class = DNSClass.IN ∧ q.query_type = QType.ptr ∧ q.name = service_name) with
  | some _ =>
    some (match addr with
      | .v4 _ => .queryV4
      | .v6 _ => .queryV6)
  | none =>
    let scanned := scanAnswers service_name packet.answers ([], none)
    let joined := scanAdditionals scanned.1 scanned.2 packet.additionals ([], [])
    some (.response (buildPeers now joined.1 joined.2))

/-! ## Updater: peer book, callback, and garbage collection (updater.rs) -/

/-- The tombstone delivered on expiry: same `last_seen`, empty address set,
default (empty) attributes. -/
def tombstone (p : Peer) : Peer := ⟨[], p.last_seen, []⟩

/-- The `Input::Peers` arm of the updater (updater.rs lines 37-45): for every
observed peer, invoke the callback, insert the entry, and notify the size
subscribers when the id was new.  Returns the new book, the callback
invocations in order, and the sizes published to subscribers. -/
def processPeers :
    Bmap String Peer → List (String × Peer) →
    Bmap String Peer × List (String × Peer) × List Nat
  | book, [] => (book, [], [])
  | book, (id, peer) :: rest =>
    let wasNew := (Bmap.get book id).isNone
    let book' := Bmap.insert book id peer
    let out := processPeers book' rest
    (out.1, (id, peer) :: out.2.1,
     (if wasNew then [book'.length] else []) ++ out.2.2)

/-- The per-peer grace window of the GC pass (updater.rs lines 53-58): the
expected total reappearance frequency is `min(ceil(τ·φ), |book|) / τ`, the
per-peer frequency divides it by `|book|`, and the grace window is three
per-peer reappearance intervals. -/
def gcGrace (tau phi : ℚ) (bookLen : Nat) : ℚ :=
  let expected_frequency := min (⌈tau * phi⌉ : ℚ) (bookLen : ℚ) / tau
  let frequency_per_peer := expected_frequency / (bookLen : ℚ)
  3 / frequency_per_peer

/-- `peers.retain(..)` of the GC arm: keep a peer iff its age
(`now.checked_duration_since(last_seen)`, saturating at zero) is below the
grace window; invoke the callback with a tombstone for each removed peer.
Returns the retained book and the callback invocations in order. -/
def gcSweep (grace now : ℚ) :
    Bmap String Peer → Bmap String Peer × List (String × Peer)
  | [] => ([], [])
  | (id, peer) :: rest =>
    let age := if peer.last_seen ≤ now then now - peer.last_seen else 0
    let out := gcSweep grace now rest
    if age < grace then ((id, peer) :: out.1, out.2)
    else (out.1, (id, tombstone peer) :: out.2)

/-- One GC tick (updater.rs lines 47-79): skip when the book is empty,
otherwise sweep with the grace window computed from τ, φ and the book size.
Returns the new book and the callback invocations. -/
def gcStep (tau phi now : ℚ) (book : Bmap String Peer) :
    Bmap String Peer × List (String × Peer) :=
  if book.isEmpty then (book, [])
  else gcSweep (gcGrace tau phi book.length) now book

/-! ## Concrete fixtures used by witnesses and counterexamples -/

/-- A service name `_s._udp.local.`. -/
def sn0 : Name := ["_s", "_udp", "local"]

/-- A discoverer whose local entry advertises one address and one non-empty
TXT attribute. -/
def d0 : Disco := ⟨"a", [("a", ⟨[(.v4 1, 80)], 0, [("k", some "v")]⟩)]⟩

/-- A discoverer whose local entry exists but advertises no address (the
state left behind by `remove_port` on the last advertised port). -/
def d1 : Disco := ⟨"a", [("a", ⟨[], 0, [("k", some "v")]⟩)]⟩

/-- A Phase-2 state for the sender of `d1`: response cached, counter zero. -/
def st1 : P2State := ⟨0, 1, d1, make_response d1 sn0, false⟩

/-- A Phase-2 state with no cached response and zero counter. -/
def st0 : P2State := ⟨0, 1, ⟨"a", []⟩, none, false⟩

/-- An inbound response packet carrying IN-class SRV answers for two
distinct peer ids `a` and `b` at the service name, with one A additional
each. -/
def twoPeerPacket : Message :=
  ⟨.response, true, [],
    [⟨["a", "_s", "_udp", "local"], 0, .IN, .srv 0 0 80 ["a-80", "local"]⟩,
     ⟨["b", "_s", "_udp", "local"], 0, .IN, .srv 0 0 81 ["b-81", "local"]⟩],
    [⟨["a-80", "local"], 0, .IN, .a 1⟩,
     ⟨["b-81", "local"], 0, .IN, .a 2⟩]⟩

/-- A 255-byte ASCII string. -/
def s255 : String := String.mk (List.replicate 255 'a')

/-- A one-entry peer book whose single peer was last seen at time 0. -/
def book3 : Bmap String Peer := [("a", ⟨[], 0, []⟩)]

/-- Invariant of the answers scan: every `(port, peer_id)` pair recorded in
`peer_ports` carries the currently selected peer id. -/
def PidInv (acc : Bmap Name (List (Nat × String)) × Option String) : Prop :=
  ∀ e ∈ acc.1, ∀ x ∈ e.2, acc.2 = some x.2

/-- Shape invariant of the additionals join: the address map is empty or a
single entry keyed by the selected peer id. -/
def OnePeer (pid : Option String) (pa : Bmap String (List (IpAddr × Nat))) : Prop :=
  pa = [] ∨ ∃ p l, pid = some p ∧ pa = [(p, l)]


deriving instance DecidableEq for Except

end SwarmDiscovery

namespace SwarmDiscovery

/-! ## Theorems -/

set_option maxRecDepth 8000 in
/-- C6 counterexample: at key `""` with a 255-byte value the combined length
exceeds 254 bytes, yet validation returns `EmptyKey`, not `TooLong` — the
claim's "returns TooLong exactly when key length plus value length exceeds
254 bytes" fails at this input. -/
theorem validate_txt_emptyKey_overrides_tooLong :
    validate_txt_attribute "" (some s255) = .error .EmptyKey
    ∧ 254 < strByteLen "" + ((some s255).map strByteLen).getD 0
    ∧ ¬ validate_txt_attribute "" (some s255) = .error .TooLong :=
  ⟨by decide, by decide, by decide⟩

/-- C6 (amended): validation returns `EmptyKey` exactly when the key is
empty; returns `TooLong` exactly when the key is non-empty and the combined
byte length of key and value (an absent value counting as 0) exceeds 254
(so 255 combined bytes with a non-empty key are rejected and 254 accepted);
otherwise it succeeds; and `set_txt_attribute` performs exactly this check
synchronously, enqueueing the `SetTxt` control message if and only if
validation succeeds, and returning the validation error otherwise. -/
theorem validate_txt_attribute_spec :
    ∀ (key : String) (value : Option String),
      (validate_txt_attribute key value = .error .EmptyKey ↔ key = "")
      ∧ (validate_txt_attribute key value = .error .TooLong ↔
          ¬ key = "" ∧ 254 < strByteLen key + (value.map strByteLen).getD 0)
      ∧ (validate_txt_attribute key value = .ok () ↔
          ¬ key = "" ∧ strByteLen key + (value.map strByteLen).getD 0 ≤ 254)
      ∧ (∀ g, set_txt_attribute key value = .ok g ↔
          validate_txt_attribute key value = .ok () ∧ g = .SetTxt key value)
      ∧ (∀ e, set_txt_attribute key value = .error e ↔
          validate_txt_attribute key value = .error e) := by
  intro key value
  by_cases hk : key = ""
  · simp [validate_txt_attribute, set_txt_attribute, hk]
  · by_cases hl : 254 < strByteLen key + (value.map strByteLen).getD 0
    · simp [validate_txt_attribute, set_txt_attribute, hk, hl, eq_comm]
    · simp [validate_txt_attribute, set_txt_attribute, hk, hl, Nat.not_lt.mp hl, eq_comm]

/-- C2 (code bug): the local advertisement of `d0` carries the non-empty
attribute map `{k ↦ v}`, yet feeding the response message built by
`make_response` back through the Receiver's `handle_msg` yields the peer
with an empty attribute map: the TXT answer sits in the answers section,
where the answers loop skips every non-SRV record, and the additionals loop
(the only place TXT is read) never sees it — the round trip loses every
attribute, contradicting the library's own integration test
(`tests/discovery.rs`, `assert_eq!(txt, expected_txt)`). -/
theorem txt_roundtrip_lost :
    (Bmap.get d0.peers "a").map Peer.txt = some [("k", some "v")]
    ∧ (make_response d0 sn0).bind (fun m => handle_msg m sn0 (.v4 2) 5) =
        some (.response [("a", ⟨[(.v4 1, 80)], 5, []⟩)]) :=
  ⟨by decide, by decide⟩

/-- Filtering twice with the same predicate equals filtering once. -/
theorem filter_self_idem (p : α → Bool) (l : List α) :
    (l.filter p).filter p = l.filter p := by
  induction l with
  | nil => rfl
  | cons x xs ih =>
    by_cases h : p x <;> simp [List.filter_cons, h, ih]

/-- `Bmap.modify` with an idempotent value transformer is idempotent. -/
theorem modify_self_idem [DecidableEq κ] (m : Bmap κ ν) (k : κ) (f : ν → ν)
    (hf : ∀ v, f (f v) = f v) :
    Bmap.modify (Bmap.modify m k f) k f = Bmap.modify m k f := by
  induction m with
  | nil => rfl
  | cons e rest ih =>
    by_cases h : e.1 = k <;> simp [Bmap.modify, h, hf] <;>
      simpa [Bmap.modify] using ih

/-- C5: the control operations `RemovePort`, `RemoveAddr` and `RemoveTxt`
are idempotent on the local advertisement state: applying any of them twice
(at possibly different times and service names) leaves the same
`Discoverer` state — hence the same local Peer entry — as applying it
once. -/
theorem remove_ops_idempotent :
    ∀ (d : Disco) (sn sn' : Name) (now now' : ℚ) (p : Nat) (a : IpAddr) (k : String),
      (update_response now' (update_response now d sn (.RemovePort p)).1 sn' (.RemovePort p)).1
        = (update_response now d sn (.RemovePort p)).1
      ∧ (update_response now' (update_response now d sn (.RemoveAddr a)).1 sn' (.RemoveAddr a)).1
        = (update_response now d sn (.RemoveAddr a)).1
      ∧ (update_response now' (update_response now d sn (.RemoveTxt k)).1 sn' (.RemoveTxt k)).1
        = (update_response now d sn (.RemoveTxt k)).1 := by
  intro d sn sn' now now' p a k
  refine ⟨?_, ?_, ?_⟩ <;>
    simp only [update_response, applyUpdate] <;>
    congr 1 <;>
    apply modify_self_idem <;>
    intro v <;>
    simp [filter_self_idem, Bmap.erase]

/-- C8 counterexample: with the book already holding peer `a` with
unchanged addresses and attributes, processing a Response event carrying
exactly the same snapshot still invokes the user callback (once, with that
snapshot) — the claim's "re-observing a peer with an unchanged address set
and attributes does not invoke the callback" fails. -/
theorem callback_fires_on_unchanged_peer :
    (processPeers [("a", ⟨[(.v4 1, 80)], 0, []⟩)] [("a", ⟨[(.v4 1, 80)], 0, []⟩)]).2.1
      = [("a", ⟨[(.v4 1, 80)], 0, []⟩)]
    ∧ ([("a", (⟨[(.v4 1, 80)], 0, []⟩ : Peer))] : List (String × Peer)) ≠ [] :=
  ⟨by decide, by decide⟩

/-- C8 (amended): the Updater invokes the user callback for every
`(id, peer)` pair of every received Response event, in order and
unconditionally — first sightings and changes are therefore reported, but
so are re-observations with unchanged address set and attributes — and on
expiry it passes a tombstone with an empty address list (the GC behaviour
proved for C3). -/
theorem processPeers_callback_every_entry :
    ∀ (book : Bmap String Peer) (msg : List (String × Peer)),
      (processPeers book msg).2.1 = msg := by
  intro book msg
  induction msg generalizing book with
  | nil => rfl
  | cons e rest ih => simp [processPeers, ih]

/-- C7 counterexample: the state `d1` (reached from `d0` by `RemovePort 80`,
i.e. removing the last advertised port) advertises no address at all, yet
the response cache is still populated and the Phase-2 timer firing with the
current epoch does send it and does set `has_responded` — the claim's
"with no advertised address, nothing is sent" fails. -/
theorem phase2_sends_with_no_advertised_address :
    (update_response 0 d0 sn0 (.RemovePort 80)).1 = d1
    ∧ (Bmap.get d1.peers "a").map Peer.addrs = some []
    ∧ (phase2Run 1 0 sn0 0 .any [.timeout 0] st1).sent ≠ []
    ∧ (phase2Run 1 0 sn0 0 .any [.timeout 0] st1).state.hasResponded = true :=
  ⟨by decide, by decide, by decide, by decide⟩

/-- C7 (amended): when the Phase-2 timer with the current epoch expires, the
Sender sends the cached response on the mode of the triggering query and
sets `has_responded` if and only if a response is cached; and a response is
cached if and only if the local peer map has an entry for `peer_id` — which
holds whenever at least one address is advertised, but also when the entry
merely exists with an empty address set (e.g. after `remove_port` removed
the last address, or when only TXT attributes were ever set). -/
theorem phase2_timeout_sends_iff_cached :
    ∀ (co tc : Nat) (sn : Name) (now : ℚ) (mode : Mode)
      (rest : List MdnsMsg) (st : P2State),
      phase2Run co tc sn now mode (.timeout tc :: rest) st =
        ⟨{ st with hasResponded := st.hasResponded || st.response.isSome },
          (st.response.map fun m => (m, mode)).toList, [], .timedOut⟩
      ∧ ∀ (d : Disco) (sname : Name),
          (make_response d sname).isSome = (Bmap.get d.peers d.peer_id).isSome := by
  intro co tc sn now mode rest st
  constructor
  · obtain ⟨rc, ss, d, r, hres⟩ := st
    cases r <;> simp [phase2Run]
  · intro d sname
    cases h : Bmap.get d.peers d.peer_id <;> simp [make_response, h]

/-- C4: during any single Phase-2 window, whatever events arrive, the local
node emits at most one response message; none is emitted when the window
ends in suppression or is still pending, so the count is zero when
suppressed (or no response is cached at the timer) and one exactly when the
current-epoch timer fires with a cached response. -/
theorem phase2_at_most_one_response :
    ∀ (co tc : Nat) (sn : Name) (now : ℚ) (mode : Mode)
      (events : List MdnsMsg) (st : P2State),
      (phase2Run co tc sn now mode events st).sent.length ≤ 1
      ∧ ((phase2Run co tc sn now mode events st).outcome = .suppressed →
          (phase2Run co tc sn now mode events st).sent = [])
      ∧ ((phase2Run co tc sn now mode events st).outcome = .pending →
          (phase2Run co tc sn now mode events st).sent = []) := by
  intro co tc sn now mode events
  induction events with
  | nil => intro st; simp [phase2Run]
  | cons m rest ih =>
    intro st
    cases m with
    | response resp =>
      by_cases h : co ≤ st.responseCount + resp.length
      · simp [phase2Run, h]
      · simpa [phase2Run, h] using ih _
    | timeout c =>
      by_cases h : c = tc
      · subst h
        cases hr : st.response <;> simp [phase2Run, hr]
      · simpa [phase2Run, h] using ih _
    | sizeUpdate n => simpa [phase2Run] using ih _
    | update g => simpa [phase2Run] using ih _
    | queryV4 => simpa [phase2Run] using ih _
    | queryV6 => simpa [phase2Run] using ih _

/-- C4 witness: a concrete suppressed window (cutoff 1, one observed peer)
emits no response. -/
theorem phase2_at_most_one_response_witness :
    (phase2Run 1 0 [] 0 .any [.response [("b", Peer.new 0)]] st0).sent = [] :=
  (phase2_at_most_one_response 1 0 [] 0 .any [.response [("b", Peer.new 0)]] st0).2.1
    (by decide)

/-- C1: in Phase 2, a `Response(peers)` event increments the response
counter by the number of peers in the event's map (forwarding the snapshot
to the Updater); the Sender suppresses its own response — aborts the timer
and leaves the window without sending — exactly when the incremented
counter reaches or exceeds the cutoff, and the cutoff is `⌈τ·φ⌉` (the
product rounded up, then cast to an unsigned integer). -/
theorem phase2_response_suppression :
    ∀ (tau phi : ℚ) (tc : Nat) (sn : Name) (now : ℚ) (mode : Mode)
      (rest : List MdnsMsg) (st : P2State) (resp : Bmap String Peer),
      (cutoff tau phi ≤ st.responseCount + resp.length →
        phase2Run (cutoff tau phi) tc sn now mode (.response resp :: rest) st =
          ⟨{ st with responseCount := st.responseCount + resp.length },
            [], [resp], .suppressed⟩)
      ∧ (st.responseCount + resp.length < cutoff tau phi →
        phase2Run (cutoff tau phi) tc sn now mode (.response resp :: rest) st =
          (let out := phase2Run (cutoff tau phi) tc sn now mode rest
              { st with responseCount := st.responseCount + resp.length }
           { out with updates := resp :: out.updates }))
      ∧ cutoff tau phi = (⌈tau * phi⌉).toNat := by
  intro tau phi tc sn now mode rest st resp
  refine ⟨fun h => ?_, fun h => ?_, rfl⟩
  · simp [phase2Run, h]
  · simp [phase2Run, Nat.not_le.mpr h]

/-- C1 witness: with τ = φ = 1 the cutoff is 1, and a single observed peer
suppresses the response. -/
theorem phase2_response_suppression_witness :
    phase2Run (cutoff 1 1) 0 [] 0 .any [.response [("b", Peer.new 0)]] st0 =
      ⟨{ st0 with responseCount := st0.responseCount + [("b", Peer.new 0)].length },
        [], [[("b", Peer.new 0)]], .suppressed⟩ :=
  (phase2_response_suppression 1 1 0 [] 0 .any [] st0 [("b", Peer.new 0)]).1
    (by simp [cutoff, st0])

/-- A fold preserves any invariant preserved by each step. -/
theorem foldl_preserve (Inv : β → Prop) (f : β → α → β)
    (h : ∀ b a, Inv b → Inv (f b a)) :
    ∀ (l : List α) (b : β), Inv b → Inv (l.foldl f b) := by
  intro l
  induction l with
  | nil => intro b hb; exact hb
  | cons x xs ih => intro b hb; exact ih _ (h b x hb)

/-- `Bmap.pushAt` preserves a predicate that holds of all keys and all
values and of the pushed key and element. -/
theorem pushAt_forall [BLt κ] [DecidableEq κ] (K : κ → Prop) (Q : α → Prop) :
    ∀ (m : Bmap κ (List α)) (k : κ) (x : α),
      (∀ e ∈ m, K e.1 ∧ ∀ y ∈ e.2, Q y) → K k → Q x →
      ∀ e ∈ Bmap.pushAt m k x, K e.1 ∧ ∀ y ∈ e.2, Q y := by
  intro m
  induction m with
  | nil =>
    intro k x _ hk hx e he
    simp [Bmap.pushAt, Bmap.updateD] at he
    subst he
    refine ⟨hk, ?_⟩
    intro y hy
    simp at hy
    subst hy
    exact hx
  | cons hd tl ih =>
    obtain ⟨k1, v1⟩ := hd
    intro k x hm hk hx e he
    by_cases h1 : k = k1
    · simp only [Bmap.pushAt, Bmap.updateD, if_pos h1] at he
      rcases List.mem_cons.mp he with rfl | htl
      · refine ⟨(hm (k1, v1) (List.mem_cons_self _ _)).1, ?_⟩
        intro y hy
        rcases List.mem_append.mp hy with hy | hy
        · exact (hm (k1, v1) (List.mem_cons_self _ _)).2 y hy
        · simp at hy
          subst hy
          exact hx
      · exact hm e (List.mem_cons_of_mem _ htl)
    · by_cases h2 : BLt.blt k k1
      · simp only [Bmap.pushAt, Bmap.updateD, if_neg h1, if_pos h2] at he
        rcases List.mem_cons.mp he with rfl | htl
        · refine ⟨hk, ?_⟩
          intro y hy
          simp at hy
          subst hy
          exact hx
        · exact hm e htl
      · simp only [Bmap.pushAt, Bmap.updateD, if_neg h1, if_neg h2] at he
        rcases List.mem_cons.mp he with rfl | htl
        · exact hm (k1, v1) (List.mem_cons_self _ _)
        · exact ih k x (fun e' he' => hm e' (List.mem_cons_of_mem _ he')) hk hx e
            (by simpa [Bmap.pushAt] using htl)

/-- A successful `Bmap.get` witnesses membership of the entry. -/
theorem get_mem [DecidableEq κ] :
    ∀ (m : Bmap κ ν) (k : κ) (v : ν), Bmap.get m k = some v → (k, v) ∈ m := by
  intro m
  induction m with
  | nil => intro k v h; simp [Bmap.get] at h
  | cons hd tl ih =>
    obtain ⟨k1, v1⟩ := hd
    intro k v h
    simp only [Bmap.get] at h
    by_cases hk : k = k1
    · rw [if_pos hk] at h
      subst hk
      obtain rfl := Option.some.inj h
      exact List.mem_cons_self _ _
    · rw [if_neg hk] at h
      exact List.mem_cons_of_mem _ (ih k v h)

/-- Each answers-loop iteration preserves `PidInv`: pairs are only recorded
under the first peer id encountered, and the selected peer id never changes
once set. -/
theorem scanAnswersStep_inv (sn : Name)
    (acc : Bmap Name (List (Nat × String)) × Option String) (r : Record)
    (h : PidInv acc) : PidInv (scanAnswersStep sn acc r) := by
  unfold scanAnswersStep
  split
  · exact h
  split
  · exact h
  split
  · exact h
  next rpid _ =>
    split
    · exact h
    next hguard =>
      have hold : ∀ e ∈ acc.1, ∀ x ∈ e.2, some rpid = some x.2 := by
        intro e he x hx
        have hx2 := h e he x hx
        cases hacc : acc.2 with
        | none => rw [hacc] at hx2; exact absurd hx2 (by simp)
        | some p =>
          rw [hacc] at hx2
          have hp : p = rpid := by
            rw [hacc] at hguard
            simpa using hguard
          rw [← hp]
          exact hx2
      split
      next _ _ port target _ =>
        intro e he x hx
        exact (pushAt_forall (fun _ => True) (fun x' => some rpid = some x'.2)
          acc.1 target (port, rpid)
          (fun e' he' => ⟨trivial, hold e' he'⟩) trivial rfl e he).2 x hx
      next =>
        intro e he x hx
        exact hold e he x hx

/-- Invariant of the answers scan over the whole answers list. -/
theorem scanAnswers_inv (sn : Name) (answers : List Record)
    (acc : Bmap Name (List (Nat × String)) × Option String)
    (h : PidInv acc) : PidInv (scanAnswers sn answers acc) :=
  foldl_preserve PidInv (scanAnswersStep sn)
    (fun b a hb => scanAnswersStep_inv sn b a hb) answers acc h

/-- Pushing an address under the selected peer id preserves the shape. -/
theorem pushAt_onePeer (pid : Option String)
    (pa : Bmap String (List (IpAddr × Nat))) (k : String) (x : IpAddr × Nat)
    (hk : pid = some k) (h : OnePeer pid pa) :
    OnePeer pid (Bmap.pushAt pa k x) := by
  rcases h with rfl | ⟨p, l, hp, rfl⟩
  · exact Or.inr ⟨k, [x], hk, by simp [Bmap.pushAt, Bmap.updateD]⟩
  · have hkp : k = p := by
      rw [hk] at hp
      exact Option.some.inj hp
    subst hkp
    exact Or.inr ⟨k, l ++ [x], hp, by simp [Bmap.pushAt, Bmap.updateD]⟩

/-- Folding pushes of addresses whose pairs all carry the selected peer id
preserves the shape. -/
theorem foldl_pushAt_onePeer (pid : Option String) (ip : IpAddr) :
    ∀ (lst : List (Nat × String)) (pa : Bmap String (List (IpAddr × Nat))),
      (∀ x ∈ lst, pid = some x.2) → OnePeer pid pa →
      OnePeer pid (lst.foldl (fun acc pp => Bmap.pushAt acc pp.2 (ip, pp.1)) pa) := by
  intro lst
  induction lst with
  | nil => intro pa _ h; exact h
  | cons y ys ih =>
    intro pa hl h
    exact ih _ (fun x hx => hl x (List.mem_cons_of_mem _ hx))
      (pushAt_onePeer pid pa y.2 (ip, y.1) (hl y (List.mem_cons_self _ _)) h)

/-- `joinIp` preserves the shape when the recorded pairs all carry the
selected peer id. -/
theorem joinIp_onePeer (pid : Option String) (ip : IpAddr) (name : Name)
    (pp : Bmap Name (List (Nat × String)))
    (pa : Bmap String (List (IpAddr × Nat)))
    (hpp : ∀ e ∈ pp, ∀ x ∈ e.2, pid = some x.2)
    (h : OnePeer pid pa) : OnePeer pid (joinIp ip name pp pa) := by
  unfold joinIp
  apply foldl_pushAt_onePeer pid ip _ pa _ h
  intro x hx
  cases hg : Bmap.get pp name with
  | none => rw [hg] at hx; simp at hx
  | some v =>
    rw [hg] at hx
    exact hpp (name, v) (get_mem pp name v hg) x (by simpa using hx)

/-- Each additionals-loop iteration preserves the shape of the address
map. -/
theorem scanAdditionalsStep_onePeer (pp : Bmap Name (List (Nat × String)))
    (pid : Option String)
    (acc : Bmap String (List (IpAddr × Nat)) × Bmap String TxtData) (r : Record)
    (hpp : ∀ e ∈ pp, ∀ x ∈ e.2, pid = some x.2)
    (h : OnePeer pid acc.1) :
    OnePeer pid (scanAdditionalsStep pp pid acc r).1 := by
  unfold scanAdditionalsStep
  split
  · exact h
  split
  · exact h
  split
  · exact joinIp_onePeer pid _ _ pp acc.1 hpp h
  · exact joinIp_onePeer pid _ _ pp acc.1 hpp h
  · split
    · exact h
    · split
      · exact h
      · exact h
  · exact h

/-- The additionals scan (over the whole list) preserves the shape. -/
theorem scanAdditionals_onePeer (pp : Bmap Name (List (Nat × String)))
    (pid : Option String) (additionals : List Record)
    (acc : Bmap String (List (IpAddr × Nat)) × Bmap String TxtData)
    (hpp : ∀ e ∈ pp, ∀ x ∈ e.2, pid = some x.2)
    (h : OnePeer pid acc.1) :
    OnePeer pid (scanAdditionals pp pid additionals acc).1 := by
  unfold scanAdditionals
  have : ∀ (b : Bmap String (List (IpAddr × Nat)) × Bmap String TxtData) (a : Record),
      OnePeer pid b.1 → OnePeer pid (scanAdditionalsStep pp pid b a).1 :=
    fun b a hb => scanAdditionalsStep_onePeer pp pid b a hpp hb
  exact foldl_preserve (fun b => OnePeer pid b.1)
    (scanAdditionalsStep pp pid) this additionals acc h

/-- `buildPeers` of a shape-invariant address map has at most one entry. -/
theorem buildPeers_length_le_one (now : ℚ) (pid : Option String)
    (pa : Bmap String (List (IpAddr × Nat))) (pt : Bmap String TxtData)
    (h : OnePeer pid pa) : (buildPeers now pa pt).length ≤ 1 := by
  rcases h with rfl | ⟨p, l, _, rfl⟩
  · simp [buildPeers]
  · simp [buildPeers, Bmap.insert]

/-- C10: for every inbound packet classified as a response, the emitted
`Response` map contains at most one peer id: the answers loop keeps only SRV
answers bearing the first peer id encountered and skips all others, so the
joined address map — and with it the result map — never has more than one
key. -/
theorem handle_msg_single_peer :
    ∀ (packet : Message) (sn : Name) (addr : IpAddr) (now : ℚ)
      (r : Bmap String Peer),
      handle_msg packet sn addr now = some (.response r) → r.length ≤ 1 := by
  intro packet sn addr now r h
  unfold handle_msg at h
  split at h
  · cases addr <;> simp at h
  · have hr : r = buildPeers now
        (scanAdditionals (scanAnswers sn packet.answers ([], none)).1
          (scanAnswers sn packet.answers ([], none)).2 packet.additionals ([], [])).1
        (scanAdditionals (scanAnswers sn packet.answers ([], none)).1
          (scanAnswers sn packet.answers ([], none)).2 packet.additionals ([], [])).2 := by
      simpa using (Option.some.inj h).symm
    subst hr
    have hinv : PidInv (scanAnswers sn packet.answers ([], none)) :=
      scanAnswers_inv sn packet.answers ([], none) (by intro e he; simp at he)
    apply buildPeers_length_le_one now (scanAnswers sn packet.answers ([], none)).2
    exact scanAdditionals_onePeer _ _ _ _ hinv (Or.inl rfl)

/-- C10 witness: the packet carrying SRV answers for the two peer ids `a`
and `b` yields a response map with a single entry (for `a`, the first id
encountered). -/
theorem handle_msg_single_peer_witness :
    ([("a", (⟨[(.v4 1, 80)], 7, []⟩ : Peer))] : Bmap String Peer).length ≤ 1 :=
  handle_msg_single_peer twoPeerPacket sn0 (.v4 9) 7 _ (by decide)

/-- The retained book of a GC sweep is the filter of the peers whose age is
still below the grace window. -/
theorem gcSweep_kept (grace now : ℚ) :
    ∀ book : Bmap String Peer,
      (gcSweep grace now book).1 =
        book.filter fun e =>
          decide ((if e.2.last_seen ≤ now then now - e.2.last_seen else 0) < grace) := by
  intro book
  induction book with
  | nil => rfl
  | cons e rest ih =>
    obtain ⟨id, peer⟩ := e
    simp only [gcSweep, List.filter_cons]
    by_cases h : (if peer.last_seen ≤ now then now - peer.last_seen else 0) < grace <;>
      simp [h, ih]

/-- The callback invocations of a GC sweep are exactly the tombstones of the
peers whose age reached the grace window, in book order. -/
theorem gcSweep_cbs (grace now : ℚ) :
    ∀ book : Bmap String Peer,
      (gcSweep grace now book).2 =
        (book.filter fun e =>
          ! decide ((if e.2.last_seen ≤ now then now - e.2.last_seen else 0) < grace)).map
          fun e => (e.1, tombstone e.2) := by
  intro book
  induction book with
  | nil => rfl
  | cons e rest ih =>
    obtain ⟨id, peer⟩ := e
    simp only [gcSweep, List.filter_cons]
    by_cases h : (if peer.last_seen ≤ now then now - peer.last_seen else 0) < grace <;>
      simp [h, ih]

/-- With a positive grace window, the code's saturating age test agrees with
the specification's `now − last_seen ≥ grace` removal condition. -/
theorem age_lt_iff (grace now ls : ℚ) (hg : 0 < grace) :
    ((if ls ≤ now then now - ls else 0) < grace) ↔ ¬ grace ≤ now - ls := by
  by_cases h : ls ≤ now
  · simp only [if_pos h]
    exact lt_iff_not_le
  · have hneg : now - ls < 0 := sub_neg.mpr (lt_of_not_le h)
    simp only [if_neg h]
    constructor
    · intro _ hc
      exact absurd (hc.trans_lt hneg) (not_lt.mpr hg.le)
    · intro _
      exact hg

/-- The grace window is positive whenever τ, φ and the book size are. -/
theorem gcGrace_pos (tau phi : ℚ) (n : Nat) (hτ : 0 < tau) (hφ : 0 < phi)
    (hn : 0 < n) : 0 < gcGrace tau phi n := by
  unfold gcGrace
  have h1 : (0:ℚ) < (⌈tau * phi⌉ : ℚ) := by
    exact_mod_cast Int.ceil_pos.mpr (mul_pos hτ hφ)
  have h2 : (0:ℚ) < (n:ℚ) := by exact_mod_cast hn
  have h3 : (0:ℚ) < min (⌈tau * phi⌉ : ℚ) (n : ℚ) := lt_min h1 h2
  exact div_pos (by norm_num) (div_pos (div_pos h3 hτ) h2)

/-- On a book with no duplicate peer ids, entries are determined by their
key. -/
theorem nodup_keys_inj {α β : Type} :
    ∀ (l : List (α × β)), (l.map Prod.fst).Nodup →
      ∀ a ∈ l, ∀ b ∈ l, a.1 = b.1 → a = b := by
  intro l
  induction l with
  | nil => intro _ a ha; simp at ha
  | cons x xs ih =>
    intro h a ha b hb hab
    simp only [List.map_cons, List.nodup_cons] at h
    rcases List.mem_cons.mp ha with rfl | ha' <;>
      rcases List.mem_cons.mp hb with rfl | hb'
    · rfl
    · exact absurd (hab ▸ List.mem_map_of_mem Prod.fst hb') h.1
    · exact absurd (hab ▸ List.mem_map_of_mem Prod.fst ha') h.1
    · exact ih h.2 a ha' b hb' hab

/-- Every callback fired by a GC tick concerns a peer id present in the book
the tick ran on. -/
theorem gcStep_cbs_keys (tau phi now : ℚ) (book : Bmap String Peer) :
    ∀ e ∈ (gcStep tau phi now book).2, e.1 ∈ book.map Prod.fst := by
  intro e he
  unfold gcStep at he
  split at he
  · simp at he
  · rw [gcSweep_cbs] at he
    obtain ⟨a, ha, rfl⟩ := List.mem_map.mp he
    show a.1 ∈ book.map Prod.fst
    exact List.mem_map_of_mem Prod.fst (List.mem_of_mem_filter ha)

/-- C3: on a GC tick over a non-empty book (with positive τ and φ), a peer
is removed exactly when `now − last_seen` reaches the grace window
`3 / (f / |book|)` with `f = min(⌈τ·φ⌉, |book|) / τ`; the callback fires
exactly once per removed peer, in book order, with a tombstone carrying the
same `last_seen`, an empty address set and empty attributes; surviving
entries remain unchanged; and no subsequent GC tick fires the callback again
for a removed peer. -/
theorem gc_expiry_correct :
    ∀ (tau phi now : ℚ) (book : Bmap String Peer),
      0 < tau → 0 < phi → book ≠ [] → (book.map Prod.fst).Nodup →
      (∀ id pr, (id, pr) ∈ book →
        ((id, pr) ∈ (gcStep tau phi now book).1 ↔
          ¬ gcGrace tau phi book.length ≤ now - pr.last_seen))
      ∧ (gcStep tau phi now book).2 =
          (book.filter fun e =>
            decide (gcGrace tau phi book.length ≤ now - e.2.last_seen)).map
            (fun e => (e.1, tombstone e.2))
      ∧ ∀ (now' : ℚ) (e : String × Peer),
          e ∈ (gcStep tau phi now' (gcStep tau phi now book).1).2 →
          e.1 ∉ (gcStep tau phi now book).2.map Prod.fst := by
  intro tau phi now book hτ hφ hne hnd
  have hlen : 0 < book.length := List.length_pos.mpr hne
  have hg : 0 < gcGrace tau phi book.length := gcGrace_pos tau phi book.length hτ hφ hlen
  have hstep : gcStep tau phi now book = gcSweep (gcGrace tau phi book.length) now book := by
    unfold gcStep
    rw [if_neg (by simpa [List.isEmpty_iff] using hne)]
  refine ⟨?_, ?_, ?_⟩
  · intro id pr hmem
    rw [hstep, gcSweep_kept, List.mem_filter]
    simp only [hmem, true_and]
    rw [decide_eq_true_eq]
    exact age_lt_iff _ now pr.last_seen hg
  · rw [hstep, gcSweep_cbs]
    congr 1
    apply List.filter_congr
    intro e _
    rw [← decide_not, decide_eq_decide]
    rw [age_lt_iff _ now e.2.last_seen hg, not_not]
  · intro now' e he habs
    have hkey := gcStep_cbs_keys tau phi now' (gcStep tau phi now book).1 e he
    rw [hstep, gcSweep_kept] at hkey
    obtain ⟨a, ha, hae⟩ := List.mem_map.mp hkey
    rw [hstep, gcSweep_cbs, List.map_map] at habs
    obtain ⟨b, hb, hbe⟩ := List.mem_map.mp habs
    simp only [Function.comp] at hbe
    have hfa := List.mem_filter.mp ha
    have hfb := List.mem_filter.mp hb
    have hab : a = b := nodup_keys_inj book hnd a hfa.1 b hfb.1 (hae.trans hbe.symm)
    have h1 := hfa.2
    have h2 := hfb.2
    rw [hab, Bool.not_eq_true'] at *
    simp [h2] at h1

/-- C3 witness: one stale peer (last seen at 0, now 100, τ = φ = 1) is
removed and the callback list is exactly its tombstone. -/
theorem gc_expiry_correct_witness :
    (gcStep 1 1 100 book3).2 =
      (book3.filter fun e =>
        decide (gcGrace 1 1 book3.length ≤ 100 - e.2.last_seen)).map
        (fun e => (e.1, tombstone e.2)) :=
  (gc_expiry_correct 1 1 100 book3 (by decide) (by decide) (by decide) (by decide)).2.1

end SwarmDiscovery
